import Mathlib

/-!
Verification development for the hylimo geometric core: the precision-aware
line projection (`projectPointOnLine` and its helpers), the move-selection
engine (`MovedElementsSelector`), and the bounds accumulator.

Numbers are modelled by exact rationals (`ℚ`); the JavaScript floating-point
operations `Number.prototype.toPrecision` and `Math.round`-style rounding are
modelled by their exact decimal counterparts.  Euclidean distances are only
ever compared (never returned), so they are modelled by squared distances,
which are order-isomorphic to the true distances.
-/

/-- A 2D point with rational coordinates. -/
structure QPoint where
  x : ℚ
  y : ℚ
deriving DecidableEq

/-- A straight line segment given by its two endpoints. -/
structure GeoSegment where
  p1 : QPoint
  p2 : QPoint
deriving DecidableEq

/-- A composite line: an ordered list of segments. -/
structure GeoLine where
  segments : List GeoSegment
deriving DecidableEq

/-- A line with its transform.  Modelled from the spec: the transform is
already applied to the coordinates, so only the line itself remains. -/
structure TransformedLine where
  line : GeoLine
deriving DecidableEq

/-- The result of projecting a point onto a line: global fraction `pos`,
zero-based `segment` index, `relativePos` local to that segment, and the
(scaled) perpendicular `distance` from the line. -/
structure ProjectionResult where
  pos : ℚ
  segment : ℤ
  relativePos : ℚ
  distance : ℚ
deriving DecidableEq

/-- Tangent vector of a segment. -/
def segTangent (s : GeoSegment) : QPoint :=
  ⟨s.p2.x - s.p1.x, s.p2.y - s.p1.y⟩

/-- Normal vector of a segment (the tangent rotated by 90 degrees; not
normalised, matching the non-unit normal used by `findOptimalDistanceFromLine`). -/
def segNormal (s : GeoSegment) : QPoint :=
  ⟨-(s.p2.y - s.p1.y), s.p2.x - s.p1.x⟩

/-- Squared Euclidean distance.  Stands in for `Math2D.distance`, which is
only ever used in comparisons, where the squared distance induces the same
order. -/
def distSq (p q : QPoint) : ℚ :=
  (p.x - q.x) ^ 2 + (p.y - q.y) ^ 2

/-- Clamp a parameter into the unit interval. -/
def clamp01 (t : ℚ) : ℚ :=
  min 1 (max 0 t)

/-- Modelled from the spec: projection of a point onto a single straight
segment by standard parametric evaluation, returning the clamped parameter,
the squared distance used for the nearest-segment comparison, and the signed
scaled perpendicular distance.  With a forced distance the segment is offset
by that multiple of the normal before projecting. -/
def projectOnSegment (point : QPoint) (s : GeoSegment) (fd : Option ℚ) : ℚ × ℚ × ℚ :=
  let tang := segTangent s
  let nrm := segNormal s
  let den := tang.x ^ 2 + tang.y ^ 2
  let base : QPoint :=
    match fd with
    | some d => ⟨point.x - d * nrm.x, point.y - d * nrm.y⟩
    | none => point
  let t := if den = 0 then 0 else clamp01 (((base.x - s.p1.x) * tang.x + (base.y - s.p1.y) * tang.y) / den)
  let onLine : QPoint := ⟨s.p1.x + t * tang.x, s.p1.y + t * tang.y⟩
  let world : QPoint :=
    match fd with
    | some d => ⟨onLine.x + d * nrm.x, onLine.y + d * nrm.y⟩
    | none => onLine
  let dist :=
    match fd with
    | some d => d
    | none => if den = 0 then 0 else ((point.x - onLine.x) * nrm.x + (point.y - onLine.y) * nrm.y) / den
  (t, distSq point world, dist)

/-- Fold over the segments keeping the nearest projection; first of equals
wins (strict comparison).  Accumulator: `(segment index, t, distance, score)`. -/
def projectPointAux (point : QPoint) (fd : Option ℚ) :
    List GeoSegment → Nat → Option (Nat × ℚ × ℚ × ℚ) → Option (Nat × ℚ × ℚ × ℚ)
  | [], _, best => best
  | s :: rest, i, best =>
    let tsd := projectOnSegment point s fd
    let best' :=
      match best with
      | none => some (i, tsd.1, tsd.2.2, tsd.2.1)
      | some b => if tsd.2.1 < b.2.2.2 then some (i, tsd.1, tsd.2.2, tsd.2.1) else some b
    projectPointAux point fd rest (i + 1) best'

/-- Modelled from the spec: `LineEngine.DEFAULT.projectPoint` — projects a
point onto a composite line, returning the nearest position as a global
fraction, the segment index, the segment-local fraction and the signed
distance. -/
def LineEngine.projectPoint (point : QPoint) (tl : TransformedLine) (fd : Option ℚ) : ProjectionResult :=
  match projectPointAux point fd tl.line.segments 0 none with
  | none => ⟨0, 0, 0, 0⟩
  | some b => ⟨((b.1 : ℚ) + b.2.1) / (tl.line.segments.length : ℚ), (b.1 : ℤ), b.2.1, b.2.2.1⟩

/-- Segment index and local fraction used by `LineEngine.getPoint` for a
global position: the index is clamped into the valid range, the local
fraction extrapolates past the ends. -/
def globalPosToSegment (position : ℚ) (n : Nat) : Nat × ℚ :=
  let i : ℤ := max 0 (min ((n : ℤ) - 1) ⌊position * (n : ℚ)⌋)
  (Int.toNat i, position * (n : ℚ) - (i : ℚ))

/-- Modelled from the spec: `LineEngine.DEFAULT.getPoint` — evaluates the
point at a position (either global, or local to an explicitly given
segment) offset by `distance` times the segment normal. -/
def LineEngine.getPoint (position : ℚ) (segment : Option ℤ) (distance : ℚ) (tl : TransformedLine) : QPoint :=
  let n := tl.line.segments.length
  let ir : Nat × ℚ :=
    match segment with
    | some i => (Int.toNat (max 0 (min ((n : ℤ) - 1) i)), position)
    | none => globalPosToSegment position n
  match tl.line.segments[ir.1]? with
  | none => ⟨0, 0⟩
  | some s =>
    let tang := segTangent s
    let nrm := segNormal s
    ⟨s.p1.x + ir.2 * tang.x + distance * nrm.x, s.p1.y + ir.2 * tang.y + distance * nrm.y⟩

/-- Modelled from the spec: `LineEngine.DEFAULT.getNormalVector` — the
normal vector of the segment the position falls on. -/
def LineEngine.getNormalVector (position : ℚ) (segment : Option ℤ) (tl : TransformedLine) : QPoint :=
  let n := tl.line.segments.length
  let i : Nat :=
    match segment with
    | some i => Int.toNat (max 0 (min ((n : ℤ) - 1) i))
    | none => (globalPosToSegment position n).1
  match tl.line.segments[i]? with
  | none => ⟨0, 0⟩
  | some s => segNormal s

/-- Shared settings; modelled from the spec: optional precision
configuration, absence of a field disables that rounding tier. -/
structure SharedSettings where
  linePointPosPrecision : Option ℚ
  linePointDistancePrecision : Option ℚ
deriving DecidableEq

/-- Modelled from the spec: `SharedSettings.roundToPrecision` — round a value
to the nearest multiple of the precision step. -/
def SharedSettings.roundToPrecision (value precision : ℚ) : ℚ :=
  (round (value / precision) : ℚ) * precision

/-- Modelled from the spec: `SharedSettings.roundToLinePointDistancePrecision`
— round a distance to the configured distance precision, or return it
unchanged when none is configured. -/
def SharedSettings.roundToLinePointDistancePrecision (settings : SharedSettings) (value : ℚ) : ℚ :=
  match settings.linePointDistancePrecision with
  | none => value
  | some p => SharedSettings.roundToPrecision value p

/-- Modelled from the spec: `Number.prototype.toPrecision(15)` as an exact
operation — round to 15 significant decimal digits. -/
def toPrecision15 (x : ℚ) : ℚ :=
  if x = 0 then 0
  else
    let e : ℤ := Int.log 10 |x|
    let s : ℚ := (10 : ℚ) ^ (e - 14)
    (round (x / s) : ℚ) * s

/-- Rounding information for the `projectPointOnLine` function: the settings
providing precisions, and whether to round the `relativePos` (`true`) or the
`pos` (`false`). -/
structure RoundingInformation where
  settings : SharedSettings
  hasSegment : Bool

/-- Helper function to create a projection result with the given position
value (either `pos` or `relativePos`), holding the segment fixed in the
segment-relative case and recomputed by `floor` in the global case. -/
def createProjectionResult (value : ℚ) (isSegment : Bool) (tl : TransformedLine)
    (distance : ℚ) (originalSegment : ℤ) : ProjectionResult :=
  let n := tl.line.segments.length
  if isSegment then
    { relativePos := value, segment := originalSegment,
      pos := ((originalSegment : ℚ) + value) / (n : ℚ), distance := distance }
  else
    let segmentIndex : ℤ := ⌊value * (n : ℚ)⌋
    { pos := value, segment := segmentIndex,
      relativePos := value * (n : ℚ) - (segmentIndex : ℚ), distance := distance }

/-- Finds the optimal signed distance from the line: the scalar that,
combined with the (non-unit) normal vector, brings the line point closest to
the input point. -/
def findOptimalDistanceFromLine (pos : ℚ) (segment : Option ℤ) (tl : TransformedLine) (point : QPoint) : ℚ :=
  let pointOnLine := LineEngine.getPoint pos segment 0 tl
  let normalVector := LineEngine.getNormalVector pos segment tl
  let dx := point.x - pointOnLine.x
  let dy := point.y - pointOnLine.y
  let d2 := normalVector.x ^ 2 + normalVector.y ^ 2
  (dx * normalVector.x + dy * normalVector.y) / d2

/-- Per-candidate body of `findBestProjectionWithOptimalDistance`: build the
projection result at the candidate value, compute its optimal distance, and
return the result together with the (squared) distance of its world point
from the input point. -/
def optimalStep (point : QPoint) (tl : TransformedLine) (isSegment : Bool) (origSeg : ℤ)
    (v : ℚ) : ProjectionResult × ℚ :=
  let base := createProjectionResult v isSegment tl 0 origSeg
  let optimalDistance := findOptimalDistanceFromLine
    (if isSegment then base.relativePos else base.pos)
    (if isSegment then some base.segment else none) tl point
  let result := { base with distance := optimalDistance }
  let projected := LineEngine.getPoint
    (if isSegment then result.relativePos else result.pos)
    (if isSegment then some result.segment else none) optimalDistance tl
  (result, distSq point projected)

/-- Loop of `findBestProjectionWithOptimalDistance`: for each candidate value
evaluate `optimalStep` and keep the candidate whose world point is nearest
the input point (strict comparison, so the first-tested candidate wins
ties).  `none` stands for the initial `POSITIVE_INFINITY` minimum distance. -/
def optimalLoop (point : QPoint) (tl : TransformedLine) (isSegment : Bool) (origSeg : ℤ) :
    List ℚ → ProjectionResult → Option ℚ → ProjectionResult
  | [], best, _ => best
  | v :: rest, best, minD =>
    let rd := optimalStep point tl isSegment origSeg v
    match minD with
    | none => optimalLoop point tl isSegment origSeg rest rd.1 (some rd.2)
    | some m =>
      if rd.2 < m then optimalLoop point tl isSegment origSeg rest rd.1 (some rd.2)
      else optimalLoop point tl isSegment origSeg rest best (some m)

/-- Finds the best projection result with an optimal distance from the
provided options; the winning candidate's distance is rounded to the
configured distance precision. -/
def findBestProjectionWithOptimalDistance (point : QPoint) (tl : TransformedLine)
    (optionsToTest : List ℚ) (originalProjection : ProjectionResult) (isSegment : Bool)
    (settings : SharedSettings) : ProjectionResult :=
  let bestResult := optimalLoop point tl isSegment originalProjection.segment optionsToTest originalProjection none
  { bestResult with distance := SharedSettings.roundToLinePointDistancePrecision settings bestResult.distance }

/-- Loop of `findBestProjectionWithFixedDistance`: candidates outside `[0,1]`
are skipped; each remaining candidate's world point is evaluated at the
fixed distance and the nearest one wins (strict comparison). -/
def fixedLoop (point : QPoint) (tl : TransformedLine) (isSegment : Bool) (origSeg : ℤ) (fd : ℚ) :
    List ℚ → ProjectionResult → Option ℚ → ProjectionResult
  | [], best, _ => best
  | v :: rest, best, minD =>
    if v < 0 ∨ 1 < v then fixedLoop point tl isSegment origSeg fd rest best minD
    else
      let result := createProjectionResult v isSegment tl fd origSeg
      let pointOnLine := LineEngine.getPoint
        (if isSegment then result.relativePos else result.pos)
        (if isSegment then some result.segment else none) fd tl
      let d := distSq point pointOnLine
      match minD with
      | none => fixedLoop point tl isSegment origSeg fd rest result (some d)
      | some m =>
        if d < m then fixedLoop point tl isSegment origSeg fd rest result (some d)
        else fixedLoop point tl isSegment origSeg fd rest best (some m)

/-- Finds the best projection result with a fixed distance from the provided
options. -/
def findBestProjectionWithFixedDistance (point : QPoint) (tl : TransformedLine)
    (optionsToTest : List ℚ) (originalProjection : ProjectionResult) (isSegment : Bool)
    (forcedDistance : ℚ) : ProjectionResult :=
  fixedLoop point tl isSegment originalProjection.segment forcedDistance optionsToTest originalProjection none

/-- Projects a point on a line, similar to `LineEngine.projectPoint`, but
with additional rounding, following the source: when no position precision is
configured and the rounding targets the segment-relative value, the raw
projection is returned unchanged; otherwise three candidates (the rounded
value and its two neighbours one step away) are generated and re-validated
against the actual distance to the input point. -/
def projectPointOnLine (point : QPoint) (transformedLine : TransformedLine)
    (roundingInformation : RoundingInformation) (forcedDistance : Option ℚ) : ProjectionResult :=
  let originalProjection := LineEngine.projectPoint point transformedLine forcedDistance
  let posPrecision := roundingInformation.settings.linePointPosPrecision
  let isSegment := roundingInformation.hasSegment
  if posPrecision.isNone && isSegment then originalProjection
  else
    let valueToRound := if isSegment then originalProjection.relativePos else originalProjection.pos
    let optionsToTest : List ℚ :=
      match posPrecision with
      | none =>
        let roundedValue := toPrecision15 valueToRound
        [roundedValue, roundedValue + (10 : ℚ) ^ (-15 : ℤ), roundedValue - (10 : ℚ) ^ (-15 : ℤ)]
      | some p =>
        let roundedValue := min (max (SharedSettings.roundToPrecision valueToRound p) 0) 1
        [roundedValue, roundedValue + p, roundedValue - p]
    match forcedDistance with
    | some fd =>
      findBestProjectionWithFixedDistance point transformedLine optionsToTest originalProjection isSegment fd
    | none =>
      findBestProjectionWithOptimalDistance point transformedLine optionsToTest originalProjection isSegment
        roundingInformation.settings

/-!
The move-selection engine (`MovedElementsSelector`).

The content graph is an id-indexed store of canvas content nodes.  Elements
are identified by their (unique) string ids; set membership on element
objects in the source is therefore membership of ids here.  The class fields
`movedElements` / `implicitlyMovedElements` are insertion-ordered sets,
modelled by duplicate-free lists; the `isMovedLookup` memo table and the
`hasConflict` flag are threaded explicitly as a `CheckState`.  The check
methods never modify the two element sets, so they only take the moved ids
as a read-only argument.  A `throw` in the source (unresolvable id where an
element is required, missing segment) is modelled by `Except.error`, and so
is non-termination of the recursion on a cyclic graph (fuel exhaustion).
-/

/-- A connection segment: straight, axis-aligned, or bezier (the latter
carrying its two control point ids).  Only bezier segments are distinguished
by the move-selection code; the others behave identically there. -/
inductive SegmentDef where
  | line (segEnd : String)
  | axisAligned (segEnd : String)
  | bezier (segEnd : String) (startControlPoint : String) (endControlPoint : String)
deriving DecidableEq

/-- The end point id of a segment. -/
def SegmentDef.segEnd : SegmentDef → String
  | .line e => e
  | .axisAligned e => e
  | .bezier e _ _ => e

/-- Canvas content, a tagged union: shapes (`canvasElement`), the three point
variants, connections, markers and nested canvases.  `editable` of a
relative point models whether `MOVE_X`/`MOVE_Y` is among its edits. -/
inductive SContent where
  | canvasElement (pos : Option String)
  | absolutePoint
  | relativePoint (target : String) (editable : Bool)
  | linePoint (lineProvider : String) (pos : ℚ)
  | canvasConnection (start : String) (segments : List SegmentDef)
  | marker (posId : String) (atStart : Bool)
  | canvas
deriving DecidableEq

/-- Whether the content is a canvas element or a canvas point
(`instanceof SCanvasElement || instanceof SCanvasPoint`). -/
def isElementOrPoint : SContent → Bool
  | .canvasElement _ => true
  | .absolutePoint => true
  | .relativePoint _ _ => true
  | .linePoint _ _ => true
  | _ => false

/-- The content graph accessor: id lookup, parent lookup, and the list of
all ids (`index.all()`). -/
structure ModelIndex where
  getById : String → Option SContent
  parentOf : String → Option String
  all : List String

/-- Build a content graph from association lists. -/
def mkIndex (contents : List (String × SContent)) (parents : List (String × String))
    (all : List String) : ModelIndex :=
  ⟨fun id => contents.lookup id, fun id => parents.lookup id, all⟩

/-- The mutable part of the selector state read and written by the check
methods: the `isMovedLookup` memo table and the `hasConflict` flag. -/
structure CheckState where
  cache : List (String × Bool)
  hasConflict : Bool
deriving DecidableEq

/-- The final outputs of a `MovedElementsSelector` run. -/
structure SelResult where
  movedElements : List String
  implicitlyMovedElements : List String
  hasConflict : Bool
deriving DecidableEq

/-- Add an element to an insertion-ordered set (JavaScript `Set.add`). -/
def pushUnique (l : List String) (x : String) : List String :=
  if l.contains x then l else l ++ [x]

/-- Modelled from the spec: `LinePoint.calcSegmentIndex` — the segment a
line point lies on, derived from its position value and the segment count. -/
def calcSegmentIndex (pos : ℚ) (n : Nat) : Nat :=
  min (n - 1) (Int.toNat ⌊pos * (n : ℚ)⌋)

/-- The relevant point ids of a connection segment: the previous segment's
end (or the connection's start for segment 0), this segment's end, and for
bezier segments both control points.  An out-of-range index is the source's
undefined dereference. -/
def relevantPointIds (start : String) (segments : List SegmentDef) (segmentIndex : Nat) :
    Except Unit (List String) :=
  match (if segmentIndex = 0 then some start else (segments[segmentIndex - 1]?).map SegmentDef.segEnd) with
  | none => .error ()
  | some prev =>
    match segments[segmentIndex]? with
    | none => .error ()
    | some seg =>
      .ok (prev :: seg.segEnd ::
        (match seg with
         | .bezier _ c1 c2 => [c1, c2]
         | _ => []))

/-- `findParentByFeature` from the nearest canvas upwards: the nearest
ancestor (the start id included) that is a marker or a canvas element. -/
def findMarkerOrElementAncestor (idx : ModelIndex) : Nat → String → Option String
  | 0, _ => none
  | fuel + 1, id =>
    match idx.getById id with
    | some (.canvasElement _) => some id
    | some (.marker _ _) => some id
    | _ =>
      match idx.parentOf id with
      | some p => findMarkerOrElementAncestor idx fuel p
      | none => none

/-- Map a check over a list of ids, threading the state and collecting the
boolean results (`relevantPoints.map((point) => this.isMoved(point, ...))`). -/
def mapCheck (check : CheckState → String → Except Unit (CheckState × Bool)) :
    CheckState → List String → Except Unit (CheckState × List Bool)
  | cs, [] => .ok (cs, [])
  | cs, p :: rest =>
    match check cs p with
    | .error e => .error e
    | .ok (cs', b) =>
      match mapCheck check cs' rest with
      | .error e => .error e
      | .ok (cs'', bs) => .ok (cs'', b :: bs)

/-- The calls of the mutually recursive check methods of
`MovedElementsSelector`, combined into one dispatcher so that the recursion
is structural in the fuel. -/
inductive CheckCall where
  | isMoved (consistencyChecks : Bool) (id : String)
  | isElementMoved (consistencyChecks : Bool) (id : String)
  | isElementImplicitlyMoved (consistencyChecks : Bool) (id : String)
  | isCanvasConnectionSegmentMoved (consistencyChecks : Bool) (start : String)
      (segments : List SegmentDef) (segmentIndex : Nat)
  | isParentCanvasImplicitlyMoved (consistencyChecks : Bool) (id : String)

/-- One dispatcher for the five check methods (`isMoved`, `isElementMoved`,
`isElementImplicitlyMoved`, `isCanvasConnectionSegmentMoved`,
`isParentCanvasImplicitlyMoved`); each branch mirrors the corresponding
source method.  Every internal call consumes one unit of fuel. -/
def checkStep (idx : ModelIndex) (moved : List String) :
    Nat → CheckCall → CheckState → Except Unit (CheckState × Bool)
  | 0, _, _ => .error ()
  | fuel + 1, call, cs =>
    match call with
    | .isMoved cc id =>
      match cs.cache.lookup id with
      | some b => .ok (cs, b)
      | none =>
        match idx.getById id with
        | some c =>
          if isElementOrPoint c then
            match checkStep idx moved fuel (.isElementMoved cc id) cs with
            | .error e => .error e
            | .ok (cs', r) => .ok ({ cs' with cache := (id, r) :: cs'.cache }, r)
          else .error ()
        | none => .error ()
    | .isElementMoved cc id =>
      if moved.contains id then .ok (cs, true)
      else checkStep idx moved fuel (.isElementImplicitlyMoved cc id) cs
    | .isElementImplicitlyMoved cc id =>
      match idx.getById id with
      | some (.canvasElement (some pos)) => checkStep idx moved fuel (.isMoved cc pos) cs
      | some (.canvasElement none) => checkStep idx moved fuel (.isParentCanvasImplicitlyMoved cc id) cs
      | some (.relativePoint target _) =>
        match idx.getById target with
        | some (.canvasConnection _ segs) =>
          match segs.getLast? with
          | some s => checkStep idx moved fuel (.isMoved cc s.segEnd) cs
          | none => .error ()
        | _ => checkStep idx moved fuel (.isMoved cc target) cs
      | some (.linePoint lineProvider pos) =>
        match idx.getById lineProvider with
        | some (.canvasElement _) => checkStep idx moved fuel (.isMoved cc lineProvider) cs
        | some (.canvasConnection start segs) =>
          checkStep idx moved fuel
            (.isCanvasConnectionSegmentMoved cc start segs (calcSegmentIndex pos segs.length)) cs
        | _ => .ok (cs, false)
      | some .absolutePoint => checkStep idx moved fuel (.isParentCanvasImplicitlyMoved cc id) cs
      | _ => .ok (cs, false)
    | .isCanvasConnectionSegmentMoved cc start segments segmentIndex =>
      match relevantPointIds start segments segmentIndex with
      | .error e => .error e
      | .ok pts =>
        match mapCheck (fun st p => checkStep idx moved fuel (.isMoved cc p) st) cs pts with
        | .error e => .error e
        | .ok (cs', vals) =>
          let result := vals.any (fun b => b)
          let cs'' :=
            if cc && result && vals.any (fun b => !b) then { cs' with hasConflict := true } else cs'
          .ok (cs'', result)
    | .isParentCanvasImplicitlyMoved cc id =>
      match idx.parentOf id with
      | none => .error ()
      | some canvasId =>
        match cs.cache.lookup canvasId with
        | some b => .ok (cs, b)
        | none =>
          let checked : Except Unit (CheckState × Bool) :=
            match findMarkerOrElementAncestor idx (fuel + 1) canvasId with
            | some aid =>
              match idx.getById aid with
              | some (.canvasElement _) => checkStep idx moved fuel (.isMoved cc aid) cs
              | some (.marker _ atStart) =>
                match idx.parentOf aid with
                | some connId =>
                  match idx.getById connId with
                  | some (.canvasConnection start segs) =>
                    checkStep idx moved fuel
                      (.isCanvasConnectionSegmentMoved cc start segs
                        (if atStart then 0 else segs.length - 1)) cs
                  | _ => .error ()
                | none => .error ()
              | _ => .ok (cs, false)
            | none => .ok (cs, false)
          match checked with
          | .error e => .error e
          | .ok (cs', b) => .ok ({ cs' with cache := (canvasId, b) :: cs'.cache }, b)

/-- `isMoved(elementId, consistencyChecks)` of the selector. -/
def isMoved (idx : ModelIndex) (moved : List String) (fuel : Nat) (cc : Bool)
    (id : String) (cs : CheckState) : Except Unit (CheckState × Bool) :=
  checkStep idx moved fuel (.isMoved cc id) cs

/-- `isElementImplicitlyMoved(element, consistencyChecks)` of the selector
(the element given by id; unlike `isMoved`, no memoization and no kind
guard). -/
def isElementImplicitlyMoved (idx : ModelIndex) (moved : List String) (fuel : Nat) (cc : Bool)
    (id : String) (cs : CheckState) : Except Unit (CheckState × Bool) :=
  checkStep idx moved fuel (.isElementImplicitlyMoved cc id) cs

/-- `isCanvasConnectionSegmentMoved(connection, segmentIndex,
consistencyChecks)` of the selector (the connection given by its `start` id
and segment list). -/
def isCanvasConnectionSegmentMoved (idx : ModelIndex) (moved : List String) (fuel : Nat)
    (cc : Bool) (start : String) (segments : List SegmentDef) (segmentIndex : Nat)
    (cs : CheckState) : Except Unit (CheckState × Bool) :=
  checkStep idx moved fuel (.isCanvasConnectionSegmentMoved cc start segments segmentIndex) cs

/-- One pass of the expansion loop body of `registerElements`: process each
current element, collecting the next round's elements and extending the
moved set.  Connections are replaced by their last segment's end, markers by
their anchor point, everything else is recorded as moved; additionally a
canvas element enqueues its `pos` and a non-editable relative point its
`target`. -/
def registerStep (idx : ModelIndex) :
    List String → List String → List String → Except Unit (List String × List String)
  | [], newEls, moved => .ok (newEls, moved)
  | el :: rest, newEls, moved =>
    match idx.getById el with
    | some (.canvasConnection _ segs) =>
      match segs.getLast? with
      | some s => registerStep idx rest (pushUnique newEls s.segEnd) moved
      | none => .error ()
    | some (.marker posId _) => registerStep idx rest (pushUnique newEls posId) moved
    | c =>
      let moved' := pushUnique moved el
      match c with
      | some (.canvasElement (some pos)) => registerStep idx rest (pushUnique newEls pos) moved'
      | some (.relativePoint target editable) =>
        if editable then registerStep idx rest newEls moved'
        else registerStep idx rest (pushUnique newEls target) moved'
      | _ => registerStep idx rest newEls moved'

/-- The `while (currentElements.size > 0)` loop of `registerElements`.  Fuel
exhaustion models non-termination of the source loop on a cyclic reference
graph. -/
def registerLoop (idx : ModelIndex) : Nat → List String → List String → Except Unit (List String)
  | _, [], moved => .ok moved
  | 0, _ :: _, _ => .error ()
  | fuel + 1, current, moved =>
    match registerStep idx current [] moved with
    | .error e => .error e
    | .ok (next, moved') => registerLoop idx fuel next moved'

/-- First loop of `pruneMovedElements`: collect the moved elements that are
already implicitly moved (consistency checks enabled). -/
def pruneLoop (idx : ModelIndex) (movedAll : List String) (fuel : Nat) :
    List String → List String → CheckState → Except Unit (List String × CheckState)
  | [], implicit, cs => .ok (implicit, cs)
  | el :: rest, implicit, cs =>
    match checkStep idx movedAll fuel (.isElementImplicitlyMoved true el) cs with
    | .error e => .error e
    | .ok (cs', b) =>
      pruneLoop idx movedAll fuel rest (if b then pushUnique implicit el else implicit) cs'

/-- `registerAdditionalImplicitlyMovedElements`: sweep every canvas element
and point of the whole graph and add those not already moved that are
implicitly moved (consistency checks disabled). -/
def sweepLoop (idx : ModelIndex) (movedPruned : List String) (fuel : Nat) :
    List String → List String → CheckState → Except Unit (List String × CheckState)
  | [], implicit, cs => .ok (implicit, cs)
  | el :: rest, implicit, cs =>
    if (match idx.getById el with
        | some c => isElementOrPoint c
        | none => false) then
      if movedPruned.contains el then sweepLoop idx movedPruned fuel rest implicit cs
      else
        match checkStep idx movedPruned fuel (.isElementImplicitlyMoved false el) cs with
        | .error e => .error e
        | .ok (cs', b) =>
          sweepLoop idx movedPruned fuel rest (if b then pushUnique implicit el else implicit) cs'
    else sweepLoop idx movedPruned fuel rest implicit cs

/-- The `MovedElementsSelector` constructor: `registerElements` on the
selection, then `pruneMovedElements`, then
`registerAdditionalImplicitlyMovedElements`; the memo table persists across
the phases. -/
def runSelector (idx : ModelIndex) (fuel : Nat) (selected : List String) : Except Unit SelResult :=
  match registerLoop idx fuel selected [] with
  | .error e => .error e
  | .ok moved =>
    match pruneLoop idx moved fuel moved [] ⟨[], false⟩ with
    | .error e => .error e
    | .ok (implicitAfterPrune, cs) =>
      let movedPruned := moved.filter (fun x => !(implicitAfterPrune.contains x))
      match sweepLoop idx movedPruned fuel idx.all implicitAfterPrune cs with
      | .error e => .error e
      | .ok (implicitFinal, cs') => .ok ⟨movedPruned, implicitFinal, cs'.hasConflict⟩

/-!
The bounds accumulator.

Rotation is kept abstract: a rotation map `rot : QPoint → QPoint` stands for
"rotate by the element's rotation about the origin" (the degree-to-radian
conversion and the trigonometric evaluation of `Math2D.rotateBounds` are
absorbed into it, since they are not exactly representable over `ℚ`).  All
theorems quantify over the rotation map, so they hold for the actual
trigonometric rotation in particular.
-/

/-- A size: width and height. -/
structure QSize where
  width : ℚ
  height : ℚ
deriving DecidableEq

/-- An axis-aligned bounding box. -/
structure Bounds where
  position : QPoint
  size : QSize
deriving DecidableEq

/-- A marker: anchor fractions `refX`,`refY` and its size. -/
structure Marker where
  width : ℚ
  height : ℚ
  refX : ℚ
  refY : ℚ

/-- The layout information of a marker: the marker itself and its anchor
position (the connection start/end point); its rotation is the abstract
rotation map passed separately. -/
structure MarkerLayoutInformation where
  marker : Marker
  position : QPoint

/-- The axis-aligned envelope of four points: position is the componentwise
minimum, size the componentwise spread. -/
def envelopeOf4 (q1 q2 q3 q4 : QPoint) : Bounds :=
  let minX := min (min q1.x q2.x) (min q3.x q4.x)
  let minY := min (min q1.y q2.y) (min q3.y q4.y)
  let maxX := max (max q1.x q2.x) (max q3.x q4.x)
  let maxY := max (max q1.y q2.y) (max q3.y q4.y)
  ⟨⟨minX, minY⟩, ⟨maxX - minX, maxY - minY⟩⟩

/-- Modelled from the spec: `Math2D.rotateBounds` — the axis-aligned
envelope of the four corners of a rectangle after applying the rotation
map. -/
def Math2D.rotateBounds (rot : QPoint → QPoint) (b : Bounds) : Bounds :=
  envelopeOf4
    (rot ⟨b.position.x, b.position.y⟩)
    (rot ⟨b.position.x + b.size.width, b.position.y⟩)
    (rot ⟨b.position.x, b.position.y + b.size.height⟩)
    (rot ⟨b.position.x + b.size.width, b.position.y + b.size.height⟩)

/-- Calculates the bounds of a rotated rectangle: a `width × height`
rectangle moved by `(x, y)` relative to `pos`, rotated about `pos`, as the
rotated envelope translated by `pos`. -/
def calculateRotatedRectangleBounds (rot : QPoint → QPoint) (pos : QPoint)
    (x y width height : ℚ) : Bounds :=
  let bounds := Math2D.rotateBounds rot ⟨⟨x, y⟩, ⟨width, height⟩⟩
  ⟨⟨bounds.position.x + pos.x, bounds.position.y + pos.y⟩, bounds.size⟩

/-- Calculates the bounds for the given canvas element: the element's
rectangle offset by `(dx, dy)` from its resolved position, rotated about
that position (the position is resolved by the layout engine and passed in
here). -/
def calculateCanvasElementBounds (rot : QPoint → QPoint) (pos : QPoint)
    (dx dy width height : ℚ) : Bounds :=
  calculateRotatedRectangleBounds rot pos dx dy width height

/-- Calculates the bounds for the given marker: the marker rectangle with
its origin offset by `(-width·refX, -height·refY)` from the anchor. -/
def calculateMarkerBounds (rot : QPoint → QPoint) (ml : MarkerLayoutInformation) : Bounds :=
  let marker := ml.marker
  let x := -marker.width * marker.refX
  let y := -marker.height * marker.refY
  calculateRotatedRectangleBounds rot ml.position x y marker.width marker.height

/-- Rotation about a center: translate the center to the origin, rotate,
translate back. -/
def rotateAbout (rot : QPoint → QPoint) (center p : QPoint) : QPoint :=
  let q := rot ⟨p.x - center.x, p.y - center.y⟩
  ⟨center.x + q.x, center.y + q.y⟩

/-- The bounds described by the spec: the axis-aligned envelope of the
`width × height` rectangle whose origin is offset by `(ox, oy)` from the
anchor, rotated about the anchor (the translation by the anchor position is
part of the rotation about it). -/
def specAnchoredRectBounds (rot : QPoint → QPoint) (anchor : QPoint)
    (ox oy width height : ℚ) : Bounds :=
  envelopeOf4
    (rotateAbout rot anchor ⟨anchor.x + ox, anchor.y + oy⟩)
    (rotateAbout rot anchor ⟨anchor.x + (ox + width), anchor.y + oy⟩)
    (rotateAbout rot anchor ⟨anchor.x + ox, anchor.y + (oy + height)⟩)
    (rotateAbout rot anchor ⟨anchor.x + (ox + width), anchor.y + (oy + height)⟩)

/-!
Concrete content graphs used by the counterexamples and witnesses.
-/

/-- A root canvas containing two absolute points `p1`, `p2` and a connection
`c` from `p1` with one straight segment ending at `p2`. -/
def idxTwoPoints : ModelIndex := mkIndex
  [("root", .canvas), ("p1", .absolutePoint), ("p2", .absolutePoint),
   ("c", .canvasConnection "p1" [.line "p2"])]
  [("p1", "root"), ("p2", "root"), ("c", "root")]
  ["root", "p1", "p2", "c"]

/-- A root canvas containing a shape `S` whose `pos` is the absolute point
`P`. -/
def idxShapePos : ModelIndex := mkIndex
  [("root", .canvas), ("S", .canvasElement (some "P")), ("P", .absolutePoint)]
  [("S", "root"), ("P", "root")]
  ["root", "S", "P"]

/-- A root canvas containing two absolute points `p1`, `E` and a connection
`c` from `p1` whose single (last) segment ends at `E`. -/
def idxConnector : ModelIndex := mkIndex
  [("root", .canvas), ("p1", .absolutePoint), ("E", .absolutePoint),
   ("c", .canvasConnection "p1" [.line "E"])]
  [("p1", "root"), ("E", "root"), ("c", "root")]
  ["root", "p1", "E", "c"]

/-- The reference targets of a content node: the ids the `registerElements`
expansion can enqueue from it. -/
def refTargetsContent : SContent → List String
  | .canvasConnection _ segs =>
    match segs.getLast? with
    | some s => [s.segEnd]
    | none => []
  | .marker posId _ => [posId]
  | .canvasElement (some pos) => [pos]
  | .relativePoint target editable => if editable then [] else [target]
  | _ => []

/-- The reference targets of an id in a content graph. -/
def refTargets (idx : ModelIndex) (a : String) : List String :=
  match idx.getById a with
  | some c => refTargetsContent c
  | none => []

/-- A single-segment horizontal unit line. -/
def tlUnit : TransformedLine := ⟨⟨[⟨⟨0, 0⟩, ⟨1, 0⟩⟩]⟩⟩

/-- Whether an optional content node is a canvas connection. -/
def isConnection : Option SContent → Bool
  | some (.canvasConnection _ _) => true
  | _ => false

/-- A reference-depth measure for the `idxConnector` graph: the connection
sits strictly above the point it references. -/
def muConnector : String → Nat :=
  fun id => if id = "c" then 1 else 0

/-!
Helper lemmas.
-/

/-- Membership in a `pushUnique` extension. -/
theorem mem_pushUnique {l : List String} {x y : String} :
    y ∈ pushUnique l x ↔ y ∈ l ∨ y = x := by
  unfold pushUnique
  split
  · rename_i hc
    constructor
    · exact fun h => Or.inl h
    · rintro (h | rfl)
      · exact h
      · simpa using hc
  · simp

/-- A successful association-list lookup yields a member pair. -/
theorem mem_of_lookup_eq_some {β : Type} (l : List (String × β)) (a : String) (c : β)
    (h : l.lookup a = some c) : (a, c) ∈ l := by
  induction l with
  | nil => simp at h
  | cons p rest ih =>
    cases p with
    | mk k v =>
      cases hbeq : a == k with
      | true =>
        rw [List.lookup_cons, hbeq] at h
        simp only [beq_iff_eq] at hbeq
        cases h
        simp [hbeq]
      | false =>
        rw [List.lookup_cons, hbeq] at h
        exact List.mem_cons_of_mem _ (ih h)

/-- The source-side rotated-rectangle bounds agree with the spec-side
rotate-about-the-anchor envelope. -/
theorem calculateRotatedRectangleBounds_eq_spec (rot : QPoint → QPoint) (pos : QPoint)
    (x y width height : ℚ) :
    calculateRotatedRectangleBounds rot pos x y width height =
      specAnchoredRectBounds rot pos x y width height := by
  simp only [calculateRotatedRectangleBounds, Math2D.rotateBounds, specAnchoredRectBounds,
    rotateAbout, envelopeOf4, add_sub_cancel_left]
  simp only [Bounds.mk.injEq, QPoint.mk.injEq, QSize.mk.injEq]
  refine ⟨⟨?_, ?_⟩, ?_, ?_⟩ <;> simp only [min_add_add_left, max_add_add_left] <;> ring

/-!
The claim theorems.
-/

/-- C9: for every marker layout, the marker's bounding box equals the
axis-aligned envelope of a `width × height` rectangle whose origin is offset
by `(-width·refX, -height·refY)` from the anchor, rotated about the anchor
and carried along with the anchor position; and a shape's bounds are
computed the same way with the rectangle offset by `(dx, dy)` and rotated
about the resolved position. -/
theorem marker_and_shape_bounds_are_rotated_envelopes :
    (∀ (rot : QPoint → QPoint) (ml : MarkerLayoutInformation),
      calculateMarkerBounds rot ml =
        specAnchoredRectBounds rot ml.position (-ml.marker.width * ml.marker.refX)
          (-ml.marker.height * ml.marker.refY) ml.marker.width ml.marker.height) ∧
    (∀ (rot : QPoint → QPoint) (pos : QPoint) (dx dy width height : ℚ),
      calculateCanvasElementBounds rot pos dx dy width height =
        specAnchoredRectBounds rot pos dx dy width height) := by
  constructor
  · intro rot ml
    simp only [calculateMarkerBounds]
    exact calculateRotatedRectangleBounds_eq_spec rot ml.position _ _ _ _
  · intro rot pos dx dy width height
    exact calculateRotatedRectangleBounds_eq_spec rot pos dx dy width height

/-- C10: every projection result constructed by `createProjectionResult`
keeps its position fields coherent: `pos = (segment + relativePos) / n` where
`n ≥ 1` is the number of segments of the line. -/
theorem createProjectionResult_pos_coherent (value : ℚ) (isSegment : Bool)
    (tl : TransformedLine) (distance : ℚ) (originalSegment : ℤ)
    (hn : 1 ≤ tl.line.segments.length) :
    (createProjectionResult value isSegment tl distance originalSegment).pos =
      (((createProjectionResult value isSegment tl distance originalSegment).segment : ℚ) +
          (createProjectionResult value isSegment tl distance originalSegment).relativePos) /
        (tl.line.segments.length : ℚ) := by
  have hq : ((tl.line.segments.length : ℚ)) ≠ 0 := by
    have h0 : (0 : ℚ) < (tl.line.segments.length : ℚ) := by exact_mod_cast hn
    linarith
  cases isSegment with
  | true => simp [createProjectionResult]
  | false =>
    simp only [createProjectionResult, Bool.false_eq_true, if_false]
    field_simp

/-- C10 witness: the coherence equation at a concrete input. -/
theorem createProjectionResult_pos_coherent_witness :
    (createProjectionResult (1/2) false tlUnit 0 0).pos =
      (((createProjectionResult (1/2) false tlUnit 0 0).segment : ℚ) +
          (createProjectionResult (1/2) false tlUnit 0 0).relativePos) /
        (tlUnit.line.segments.length : ℚ) :=
  createProjectionResult_pos_coherent (1/2) false tlUnit 0 0 (by decide)

/-- C1: the code evaluated at the failing input — a one-segment connection
whose start anchor `p1` is moved but whose end `p2` is not: the segment-moved
check returns `true` although not all relevant points are moved,
contradicting the claimed all-points rule (and the method's own doc
comment). -/
theorem segmentMoved_true_with_unmoved_relevant_point :
    (isCanvasConnectionSegmentMoved idxTwoPoints ["p1"] 50 false "p1" [SegmentDef.line "p2"] 0
        ⟨[], false⟩).map Prod.snd = Except.ok true ∧
    (isMoved idxTwoPoints ["p1"] 50 false "p2" ⟨[], false⟩).map Prod.snd = Except.ok false ∧
    relevantPointIds "p1" [SegmentDef.line "p2"] 0 = Except.ok ["p1", "p2"] :=
  ⟨rfl, rfl, rfl⟩

/-- C2 counterexample: with no configured position precision and
`hasSegment = false`, the result is NOT the raw projection — its `pos` has
been rounded to 15 significant digits. -/
theorem projectPointOnLine_rounds_global_pos :
    (projectPointOnLine ⟨1/3, 5⟩ tlUnit ⟨⟨none, none⟩, false⟩ none).pos ≠
      (LineEngine.projectPoint ⟨1/3, 5⟩ tlUnit none).pos := by
  have hraw : LineEngine.projectPoint ⟨1/3, 5⟩ tlUnit none = ⟨1/3, 0, 1/3, 5⟩ := by
    simp [LineEngine.projectPoint, projectPointAux, projectOnSegment, segTangent, segNormal,
      distSq, clamp01, tlUnit, min_def, max_def]
    norm_num
  have htp : toPrecision15 ((1:ℚ)/3) = 333333333333333/1000000000000000 := by
    unfold toPrecision15
    rw [if_neg (by norm_num)]
    have hlog : Int.log 10 |(1:ℚ)/3| = -1 := by
      rw [show |(1:ℚ)/3| = 1/3 by norm_num]
      rw [Int.log_of_right_le_one 10 (by norm_num)]
      norm_num
      rw [Nat.clog_eq_one] <;> norm_num
    rw [hlog]
    norm_num [round_eq]
  have hres : projectPointOnLine ⟨1/3, 5⟩ tlUnit ⟨⟨none, none⟩, false⟩ none =
      ⟨333333333333333/1000000000000000, 0, 333333333333333/1000000000000000, 5⟩ := by
    simp only [projectPointOnLine, hraw]
    norm_num [htp, findBestProjectionWithOptimalDistance, optimalLoop, optimalStep, createProjectionResult,
      findOptimalDistanceFromLine, LineEngine.getPoint, LineEngine.getNormalVector,
      globalPosToSegment, segTangent, segNormal, distSq, tlUnit, min_def, max_def,
      SharedSettings.roundToLinePointDistancePrecision]
  rw [hres, hraw]
  norm_num

/-- C5 counterexample: projecting the point `(7/5, 0)` onto the unit segment
with precision `3/10` and global rounding yields `pos = 6/5 > 1` and
`segment = 1` on a 1-segment line, violating all of the claimed ranges. -/
theorem projectPointOnLine_result_out_of_range :
    ¬ (0 ≤ (projectPointOnLine ⟨7/5, 0⟩ tlUnit ⟨⟨some (3/10), none⟩, false⟩ none).pos ∧
       (projectPointOnLine ⟨7/5, 0⟩ tlUnit ⟨⟨some (3/10), none⟩, false⟩ none).pos ≤ 1 ∧
       0 ≤ (projectPointOnLine ⟨7/5, 0⟩ tlUnit ⟨⟨some (3/10), none⟩, false⟩ none).segment ∧
       (projectPointOnLine ⟨7/5, 0⟩ tlUnit ⟨⟨some (3/10), none⟩, false⟩ none).segment <
         (tlUnit.line.segments.length : ℤ)) := by
  have hres : projectPointOnLine ⟨7/5, 0⟩ tlUnit ⟨⟨some (3/10), none⟩, false⟩ none =
      ⟨6/5, 1, 1/5, 0⟩ := by
    simp [projectPointOnLine, LineEngine.projectPoint, projectPointAux, projectOnSegment,
      segTangent, segNormal, distSq, clamp01, tlUnit, min_def, max_def,
      SharedSettings.roundToPrecision, round_eq, findBestProjectionWithOptimalDistance,
      optimalLoop, optimalStep, createProjectionResult, findOptimalDistanceFromLine, LineEngine.getPoint,
      LineEngine.getNormalVector, globalPosToSegment,
      SharedSettings.roundToLinePointDistancePrecision]
    norm_num
    unfold Int.fract
    norm_num
  rw [hres]
  norm_num [tlUnit]

/-- C6 counterexample: with the shape `S` (whose `pos` is the absolute point
`P`) selected alone, `S` is NOT in the final `movedElements`. -/
theorem shape_not_in_final_movedElements :
    (runSelector idxShapePos 100 ["S"]).map (fun r => r.movedElements.contains "S") =
      Except.ok false := rfl

/-- C6 (amended): with the shape `S` selected alone, the run completes with
`movedElements = [P]` and `S` reclassified into `implicitlyMovedElements`
by the pruning pass, with no conflict. -/
theorem shape_selection_final_partition :
    runSelector idxShapePos 100 ["S"] = Except.ok ⟨["P"], ["S"], false⟩ := rfl

/-- C4 counterexample: in the two-point graph, segment 0 of connection `c`
has relevant points `p1` and `p2`; selecting exactly `p1` leaves `p1` as the
only explicitly moved element, `p2` unmoved — yet the run completes with
`hasConflict = false`, because the segment check is never reached. -/
theorem partial_explicit_move_without_conflict :
    runSelector idxTwoPoints 100 ["p1"] = Except.ok ⟨["p1"], [], false⟩ ∧
    relevantPointIds "p1" [SegmentDef.line "p2"] 0 = Except.ok ["p1", "p2"] :=
  ⟨rfl, rfl⟩

/-- The first component of `optimalStep` in the global-rounding branch keeps
the candidate value as its `pos`. -/
theorem optimalStep_fst_pos (point : QPoint) (tl : TransformedLine) (origSeg : ℤ) (v : ℚ) :
    (optimalStep point tl false origSeg v).1.pos = v := by
  simp [optimalStep, createProjectionResult]

/-- The `pos` of the optimal-distance loop result is the initial best's `pos`
or one of the tested candidates. -/
theorem optimalLoop_pos_mem (point : QPoint) (tl : TransformedLine) (origSeg : ℤ) :
    ∀ (opts : List ℚ) (best : ProjectionResult) (m : Option ℚ),
      (optimalLoop point tl false origSeg opts best m).pos = best.pos ∨
        (optimalLoop point tl false origSeg opts best m).pos ∈ opts := by
  intro opts
  induction opts with
  | nil =>
    intro best m
    left
    rfl
  | cons v rest ih =>
    intro best m
    rw [optimalLoop.eq_def]
    cases m with
    | none =>
      rcases ih (optimalStep point tl false origSeg v).1
          (some (optimalStep point tl false origSeg v).2) with h | h
      · right
        rw [h, optimalStep_fst_pos]
        exact List.mem_cons_self v rest
      · right
        exact List.mem_cons_of_mem _ h
    | some mm =>
      dsimp only
      split
      · rcases ih (optimalStep point tl false origSeg v).1
            (some (optimalStep point tl false origSeg v).2) with h | h
        · right
          rw [h, optimalStep_fst_pos]
          exact List.mem_cons_self v rest
        · right
          exact List.mem_cons_of_mem _ h
      · rcases ih best (some mm) with h | h
        · left
          exact h
        · right
          exact List.mem_cons_of_mem _ h

/-- With at least one candidate, the optimal-distance search in the
global-rounding branch always returns one of the candidates as `pos` (the
initial infinite minimum distance is beaten by the first candidate). -/
theorem findBestOptimal_pos_mem (point : QPoint) (tl : TransformedLine)
    (orig : ProjectionResult) (settings : SharedSettings) (v : ℚ) (rest : List ℚ) :
    (findBestProjectionWithOptimalDistance point tl (v :: rest) orig false settings).pos ∈
      v :: rest := by
  unfold findBestProjectionWithOptimalDistance
  rw [optimalLoop.eq_def]
  dsimp only
  rcases optimalLoop_pos_mem point tl orig.segment rest (optimalStep point tl false orig.segment v).1
      (some (optimalStep point tl false orig.segment v).2) with h | h
  · rw [h, optimalStep_fst_pos]
    exact List.mem_cons_self v rest
  · exact List.mem_cons_of_mem _ h

/-- C2 (amended): with no configured position precision, the early return
fires for segment-relative rounding — `projectPointOnLine` with
`hasSegment = true` returns the raw `LineEngine` projection unchanged for
every forced distance — while global rounding is still performed: with
`hasSegment = false` (and no forced distance) the returned `pos` is one of
the three candidates built from the 15-significant-digit noise floor and the
`±1e-15` neighbours. -/
theorem projectPointOnLine_no_precision (point : QPoint) (tl : TransformedLine)
    (settings : SharedSettings) (h : settings.linePointPosPrecision = none) :
    (∀ fd, projectPointOnLine point tl ⟨settings, true⟩ fd = LineEngine.projectPoint point tl fd) ∧
    (projectPointOnLine point tl ⟨settings, false⟩ none).pos ∈
      [toPrecision15 (LineEngine.projectPoint point tl none).pos,
       toPrecision15 (LineEngine.projectPoint point tl none).pos + (10 : ℚ) ^ (-15 : ℤ),
       toPrecision15 (LineEngine.projectPoint point tl none).pos - (10 : ℚ) ^ (-15 : ℤ)] := by
  constructor
  · intro fd
    simp [projectPointOnLine, h]
  · simp only [projectPointOnLine, h]
    simp only [Option.isNone_none, Bool.and_false, Bool.false_eq_true, if_false]
    exact findBestOptimal_pos_mem point tl _ settings _ _

/-- C2 witness: the amended behaviour at a concrete input. -/
theorem projectPointOnLine_no_precision_witness :
    (projectPointOnLine ⟨1/3, 5⟩ tlUnit ⟨⟨none, none⟩, true⟩ (some 2) =
      LineEngine.projectPoint ⟨1/3, 5⟩ tlUnit (some 2)) ∧
    (projectPointOnLine ⟨1/3, 5⟩ tlUnit ⟨⟨none, none⟩, false⟩ none).pos ∈
      [toPrecision15 (LineEngine.projectPoint ⟨1/3, 5⟩ tlUnit none).pos,
       toPrecision15 (LineEngine.projectPoint ⟨1/3, 5⟩ tlUnit none).pos + (10 : ℚ) ^ (-15 : ℤ),
       toPrecision15 (LineEngine.projectPoint ⟨1/3, 5⟩ tlUnit none).pos - (10 : ℚ) ^ (-15 : ℤ)] :=
  ⟨(projectPointOnLine_no_precision ⟨1/3, 5⟩ tlUnit ⟨none, none⟩ rfl).1 (some 2),
   (projectPointOnLine_no_precision ⟨1/3, 5⟩ tlUnit ⟨none, none⟩ rfl).2⟩

/-- C5 (amended): every projection result constructed by
`createProjectionResult` from an in-range candidate satisfies the contract
ranges: in the global branch a value in `[0, 1)` yields `pos ∈ [0,1]`, a
valid zero-based segment index, and `relativePos ∈ [0,1]`; in the
segment-relative branch a value in `[0,1]` with a valid original segment
does the same. -/
theorem createProjectionResult_ranges (tl : TransformedLine) (v d : ℚ) (origSeg : ℤ)
    (hn : 1 ≤ tl.line.segments.length) :
    ((0 ≤ v → v < 1 →
      0 ≤ (createProjectionResult v false tl d origSeg).pos ∧
      (createProjectionResult v false tl d origSeg).pos ≤ 1 ∧
      0 ≤ (createProjectionResult v false tl d origSeg).segment ∧
      (createProjectionResult v false tl d origSeg).segment < (tl.line.segments.length : ℤ) ∧
      0 ≤ (createProjectionResult v false tl d origSeg).relativePos ∧
      (createProjectionResult v false tl d origSeg).relativePos ≤ 1)) ∧
    ((0 ≤ v → v ≤ 1 → 0 ≤ origSeg → origSeg < (tl.line.segments.length : ℤ) →
      0 ≤ (createProjectionResult v true tl d origSeg).pos ∧
      (createProjectionResult v true tl d origSeg).pos ≤ 1 ∧
      (createProjectionResult v true tl d origSeg).segment = origSeg ∧
      0 ≤ (createProjectionResult v true tl d origSeg).relativePos ∧
      (createProjectionResult v true tl d origSeg).relativePos ≤ 1)) := by
  have hn0 : (0 : ℚ) < (tl.line.segments.length : ℚ) := by exact_mod_cast hn
  constructor
  · intro hv0 hv1
    simp only [createProjectionResult, Bool.false_eq_true, if_false]
    refine ⟨hv0, le_of_lt hv1, ?_, ?_, ?_, ?_⟩
    · exact Int.floor_nonneg.mpr (mul_nonneg hv0 (le_of_lt hn0))
    · refine Int.floor_lt.mpr ?_
      push_cast
      calc v * (tl.line.segments.length : ℚ) < 1 * (tl.line.segments.length : ℚ) :=
            mul_lt_mul_of_pos_right hv1 hn0
        _ = (tl.line.segments.length : ℚ) := one_mul _
    · exact sub_nonneg.mpr (Int.floor_le _)
    · have hlt := Int.lt_floor_add_one (v * (tl.line.segments.length : ℚ))
      push_cast at hlt
      linarith
  · intro hv0 hv1 hs0 hs1
    have hs0q : (0 : ℚ) ≤ (origSeg : ℚ) := by exact_mod_cast hs0
    have hs1q : (origSeg : ℚ) + 1 ≤ (tl.line.segments.length : ℚ) := by exact_mod_cast hs1
    simp only [createProjectionResult, if_true]
    refine ⟨?_, ?_, trivial, hv0, hv1⟩
    · exact div_nonneg (add_nonneg hs0q hv0) (le_of_lt hn0)
    · rw [div_le_one hn0]
      linarith

/-- C5 witness: the in-range construction at a concrete input. -/
theorem createProjectionResult_ranges_witness :
    0 ≤ (createProjectionResult (1/2) false tlUnit 0 0).pos ∧
    (createProjectionResult (1/2) false tlUnit 0 0).pos ≤ 1 ∧
    0 ≤ (createProjectionResult (1/2) false tlUnit 0 0).segment ∧
    (createProjectionResult (1/2) false tlUnit 0 0).segment < (tlUnit.line.segments.length : ℤ) ∧
    0 ≤ (createProjectionResult (1/2) false tlUnit 0 0).relativePos ∧
    (createProjectionResult (1/2) false tlUnit 0 0).relativePos ≤ 1 :=
  (createProjectionResult_ranges tlUnit (1/2) 0 0 (by decide)).1 (by norm_num) (by norm_num)

/-- C4 (amended): whenever the segment-moved check runs with consistency
checks enabled and the per-relevant-point moved values contain both `true`
and `false` (some but not all relevant points moved), the resulting state
has `hasConflict = true` and the check returns `true`. -/
theorem segmentMoved_partial_sets_conflict (idx : ModelIndex) (moved : List String) (fuel : Nat)
    (cs : CheckState) (start : String) (segs : List SegmentDef) (i : Nat) (pts : List String)
    (csm : CheckState) (vals : List Bool)
    (h1 : relevantPointIds start segs i = Except.ok pts)
    (h2 : mapCheck (fun st p => checkStep idx moved fuel (.isMoved true p) st) cs pts =
      Except.ok (csm, vals))
    (h3 : vals.any (fun b => b) = true)
    (h4 : vals.any (fun b => !b) = true) :
    isCanvasConnectionSegmentMoved idx moved (fuel + 1) true start segs i cs =
      Except.ok ({ csm with hasConflict := true }, true) := by
  unfold isCanvasConnectionSegmentMoved
  simp only [checkStep, h1, h2, h3, h4]
  simp

/-- C4 witness: the conflict flag is set at a concrete partially-moved
segment. -/
theorem segmentMoved_partial_sets_conflict_witness :
    isCanvasConnectionSegmentMoved idxTwoPoints ["p1"] 50 true "p1" [SegmentDef.line "p2"] 0
        ⟨[], false⟩ =
      Except.ok (⟨[("p2", false), ("root", false), ("p1", true)], true⟩, true) :=
  segmentMoved_partial_sets_conflict idxTwoPoints ["p1"] 49 ⟨[], false⟩ "p1"
    [SegmentDef.line "p2"] 0 ["p1", "p2"] ⟨[("p2", false), ("root", false), ("p1", true)], false⟩
    [true, false] rfl rfl rfl rfl

/-- Elements added to the implicit set by the whole-graph sweep either were
already there or are not in the pruned moved set (and are of element/point
kind). -/
theorem sweepLoop_mem (idx : ModelIndex) (movedP : List String) (fuel : Nat) :
    ∀ (els implicit : List String) (cs : CheckState) (implicit' : List String) (cs' : CheckState),
      sweepLoop idx movedP fuel els implicit cs = Except.ok (implicit', cs') →
      ∀ x, x ∈ implicit' → x ∈ implicit ∨
        (x ∉ movedP ∧ (match idx.getById x with
          | some c => isElementOrPoint c
          | none => false) = true) := by
  intro els
  induction els with
  | nil =>
    intro implicit cs implicit' cs' h x hx
    rw [sweepLoop] at h
    cases h
    exact Or.inl hx
  | cons el rest ih =>
    intro implicit cs implicit' cs' h x hx
    simp only [sweepLoop] at h
    split at h
    · rename_i hkind
      split at h
      · exact ih _ _ _ _ h x hx
      · rename_i hcont
        cases hcs : checkStep idx movedP fuel (.isElementImplicitlyMoved false el) cs with
        | error e =>
          rw [hcs] at h
          cases h
        | ok p =>
          rw [hcs] at h
          obtain ⟨cs1, b⟩ := p
          rcases ih _ _ _ _ h x hx with hin | hother
          · cases b with
            | false =>
              simp only [if_false, Bool.false_eq_true] at hin
              exact Or.inl hin
            | true =>
              simp only [if_true] at hin
              rcases mem_pushUnique.mp hin with h1 | rfl
              · exact Or.inl h1
              · refine Or.inr ⟨?_, hkind⟩
                simpa using hcont
          · exact Or.inr hother
    · exact ih _ _ _ _ h x hx

/-- C3: for every selection and content graph, when the construction of the
selector completes, the output sets are disjoint: an element of
`movedElements` is not in `implicitlyMovedElements`. -/
theorem selector_outputs_disjoint (idx : ModelIndex) (fuel : Nat) (selected : List String)
    (res : SelResult) (h : runSelector idx fuel selected = Except.ok res) :
    ∀ x, x ∈ res.movedElements → x ∉ res.implicitlyMovedElements := by
  unfold runSelector at h
  cases hr : registerLoop idx fuel selected [] with
  | error e =>
    rw [hr] at h
    cases h
  | ok moved =>
    rw [hr] at h
    dsimp only at h
    cases hp : pruneLoop idx moved fuel moved [] ⟨[], false⟩ with
    | error e =>
      rw [hp] at h
      cases h
    | ok q =>
      rw [hp] at h
      obtain ⟨implicitAfterPrune, cs⟩ := q
      dsimp only at h
      cases hs : sweepLoop idx (moved.filter fun y => !(implicitAfterPrune.contains y)) fuel
          idx.all implicitAfterPrune cs with
      | error e =>
        rw [hs] at h
        cases h
      | ok q2 =>
        rw [hs] at h
        obtain ⟨implicitFinal, cs'⟩ := q2
        cases h
        intro x hx hximpl
        have hx' := List.mem_filter.mp hx
        rcases sweepLoop_mem idx _ fuel _ _ _ _ _ hs x hximpl with hin | ⟨hnot, _⟩
        · have hc := hx'.2
          simp only [Bool.not_eq_true'] at hc
          have : x ∉ implicitAfterPrune := by simpa using hc
          exact this hin
        · exact hnot hx

/-- Elements recorded as moved by one expansion pass either were already
moved or are not connections. -/
theorem registerStep_moved (idx : ModelIndex) :
    ∀ (current newEls moved next moved' : List String),
      registerStep idx current newEls moved = Except.ok (next, moved') →
      ∀ x, x ∈ moved' → x ∈ moved ∨ isConnection (idx.getById x) = false := by
  intro current
  induction current with
  | nil =>
    intro newEls moved next moved' h x hx
    simp only [registerStep] at h
    cases h
    exact Or.inl hx
  | cons el rest ih =>
    intro newEls moved next moved' h x hx
    simp only [registerStep] at h
    cases hel : idx.getById el with
    | none =>
      rw [hel] at h
      dsimp only at h
      rcases ih _ _ _ _ h x hx with h1 | h1
      · rcases mem_pushUnique.mp h1 with h2 | rfl
        · exact Or.inl h2
        · right
          rw [hel]
          rfl
      · exact Or.inr h1
    | some c =>
      rw [hel] at h
      cases c with
      | canvasConnection start segs =>
        dsimp only at h
        cases hseg : segs.getLast? with
        | none =>
          rw [hseg] at h
          cases h
        | some s =>
          rw [hseg] at h
          exact ih _ _ _ _ h x hx
      | marker posId atStart =>
        dsimp only at h
        exact ih _ _ _ _ h x hx
      | canvasElement pos =>
        cases pos with
        | some p =>
          dsimp only at h
          rcases ih _ _ _ _ h x hx with h1 | h1
          · rcases mem_pushUnique.mp h1 with h2 | rfl
            · exact Or.inl h2
            · right
              rw [hel]
              rfl
          · exact Or.inr h1
        | none =>
          dsimp only at h
          rcases ih _ _ _ _ h x hx with h1 | h1
          · rcases mem_pushUnique.mp h1 with h2 | rfl
            · exact Or.inl h2
            · right
              rw [hel]
              rfl
          · exact Or.inr h1
      | relativePoint target editable =>
        dsimp only at h
        cases editable with
        | true =>
          simp only [if_true] at h
          rcases ih _ _ _ _ h x hx with h1 | h1
          · rcases mem_pushUnique.mp h1 with h2 | rfl
            · exact Or.inl h2
            · right
              rw [hel]
              rfl
          · exact Or.inr h1
        | false =>
          simp only [Bool.false_eq_true, if_false] at h
          rcases ih _ _ _ _ h x hx with h1 | h1
          · rcases mem_pushUnique.mp h1 with h2 | rfl
            · exact Or.inl h2
            · right
              rw [hel]
              rfl
          · exact Or.inr h1
      | absolutePoint =>
        dsimp only at h
        rcases ih _ _ _ _ h x hx with h1 | h1
        · rcases mem_pushUnique.mp h1 with h2 | rfl
          · exact Or.inl h2
          · right
            rw [hel]
            rfl
        · exact Or.inr h1
      | linePoint lineProvider pos =>
        dsimp only at h
        rcases ih _ _ _ _ h x hx with h1 | h1
        · rcases mem_pushUnique.mp h1 with h2 | rfl
          · exact Or.inl h2
          · right
            rw [hel]
            rfl
        · exact Or.inr h1
      | canvas =>
        dsimp only at h
        rcases ih _ _ _ _ h x hx with h1 | h1
        · rcases mem_pushUnique.mp h1 with h2 | rfl
          · exact Or.inl h2
          · right
            rw [hel]
            rfl
        · exact Or.inr h1

/-- Elements recorded as moved by the whole expansion loop either were in
the initial moved set or are not connections. -/
theorem registerLoop_moved (idx : ModelIndex) :
    ∀ (fuel : Nat) (current moved movedOut : List String),
      registerLoop idx fuel current moved = Except.ok movedOut →
      ∀ x, x ∈ movedOut → x ∈ moved ∨ isConnection (idx.getById x) = false := by
  intro fuel
  induction fuel with
  | zero =>
    intro current moved movedOut h x hx
    cases current with
    | nil =>
      simp only [registerLoop] at h
      cases h
      exact Or.inl hx
    | cons a rest =>
      simp only [registerLoop] at h
      cases h
  | succ fuel ih =>
    intro current moved movedOut h x hx
    cases current with
    | nil =>
      simp only [registerLoop] at h
      cases h
      exact Or.inl hx
    | cons a rest =>
      simp only [registerLoop] at h
      cases hstep : registerStep idx (a :: rest) [] moved with
      | error e =>
        rw [hstep] at h
        cases h
      | ok p =>
        rw [hstep] at h
        obtain ⟨next, moved1⟩ := p
        dsimp only at h
        rcases ih next moved1 movedOut h x hx with h1 | h1
        · rcases registerStep_moved idx _ _ _ _ _ hstep x h1 with h2 | h2
          · exact Or.inl h2
          · exact Or.inr h2
        · exact Or.inr h1

/-- Elements added to the implicit set by the pruning pass come from the
list being pruned. -/
theorem pruneLoop_implicit (idx : ModelIndex) (movedAll : List String) (fuel : Nat) :
    ∀ (els implicit : List String) (cs : CheckState) (implicit' : List String) (cs' : CheckState),
      pruneLoop idx movedAll fuel els implicit cs = Except.ok (implicit', cs') →
      ∀ x, x ∈ implicit' → x ∈ implicit ∨ x ∈ els := by
  intro els
  induction els with
  | nil =>
    intro implicit cs implicit' cs' h x hx
    simp only [pruneLoop] at h
    cases h
    exact Or.inl hx
  | cons el rest ih =>
    intro implicit cs implicit' cs' h x hx
    simp only [pruneLoop] at h
    cases hcs : checkStep idx movedAll fuel (.isElementImplicitlyMoved true el) cs with
    | error e =>
      rw [hcs] at h
      cases h
    | ok p =>
      rw [hcs] at h
      obtain ⟨cs1, b⟩ := p
      dsimp only at h
      rcases ih _ _ _ _ h x hx with h1 | h1
      · cases b with
        | false =>
          simp only [Bool.false_eq_true, if_false] at h1
          exact Or.inl h1
        | true =>
          simp only [if_true] at h1
          rcases mem_pushUnique.mp h1 with h2 | rfl
          · exact Or.inl h2
          · exact Or.inr (List.mem_cons_self _ _)
      · exact Or.inr (List.mem_cons_of_mem _ h1)

/-- C7: a connector whose last segment ends at point `E`, selected alone,
yields `movedElements = [E]` (with nothing implicit and no conflict); and on
every completing run of every graph, a connection node appears in neither
output set. -/
theorem connector_selection_and_connections_never_moved :
    runSelector idxConnector 100 ["c"] = Except.ok ⟨["E"], [], false⟩ ∧
    ∀ (idx : ModelIndex) (fuel : Nat) (selected : List String) (res : SelResult)
      (id start : String) (segs : List SegmentDef),
      runSelector idx fuel selected = Except.ok res →
      idx.getById id = some (.canvasConnection start segs) →
      id ∉ res.movedElements ∧ id ∉ res.implicitlyMovedElements := by
  constructor
  · rfl
  · intro idx fuel selected res id start segs h hconn
    have hisconn : isConnection (idx.getById id) = true := by
      rw [hconn]
      rfl
    unfold runSelector at h
    cases hr : registerLoop idx fuel selected [] with
    | error e =>
      rw [hr] at h
      cases h
    | ok moved =>
      rw [hr] at h
      dsimp only at h
      cases hp : pruneLoop idx moved fuel moved [] ⟨[], false⟩ with
      | error e =>
        rw [hp] at h
        cases h
      | ok q =>
        rw [hp] at h
        obtain ⟨implicitAfterPrune, cs⟩ := q
        dsimp only at h
        cases hs : sweepLoop idx (moved.filter fun y => !(implicitAfterPrune.contains y)) fuel
            idx.all implicitAfterPrune cs with
        | error e =>
          rw [hs] at h
          cases h
        | ok q2 =>
          rw [hs] at h
          obtain ⟨implicitFinal, cs'⟩ := q2
          cases h
          have hmoved : id ∉ moved := by
            intro hin
            rcases registerLoop_moved idx fuel selected [] moved hr id hin with h1 | h1
            · simp at h1
            · rw [h1] at hisconn
              cases hisconn
          constructor
          · intro hin
            exact hmoved (List.mem_filter.mp hin).1
          · intro hin
            rcases sweepLoop_mem idx _ fuel _ _ _ _ _ hs id hin with hin2 | ⟨_, hkind⟩
            · rcases pruneLoop_implicit idx moved fuel moved [] ⟨[], false⟩ implicitAfterPrune cs
                  hp id hin2 with h3 | h3
              · simp at h3
              · exact hmoved h3
            · rw [hconn] at hkind
              simp [isElementOrPoint] at hkind

/-- One expansion pass never fails on a graph whose connections all have at
least one segment. -/
theorem registerStep_ok (idx : ModelIndex)
    (hConn : ∀ id start segs, idx.getById id = some (.canvasConnection start segs) → segs ≠ []) :
    ∀ (current newEls moved : List String),
      ∃ out, registerStep idx current newEls moved = Except.ok out := by
  intro current
  induction current with
  | nil =>
    intro newEls moved
    exact ⟨(newEls, moved), rfl⟩
  | cons el rest ih =>
    intro newEls moved
    simp only [registerStep]
    cases hel : idx.getById el with
    | none => exact ih _ _
    | some c =>
      cases c with
      | canvasConnection start segs =>
        have hne : segs ≠ [] := hConn el start segs hel
        have hlast : ∃ s, segs.getLast? = some s :=
          List.getLast?_eq_getLast segs hne ▸ ⟨segs.getLast hne, rfl⟩
        obtain ⟨s, hs⟩ := hlast
        dsimp only
        rw [hs]
        exact ih _ _
      | marker posId atStart => exact ih _ _
      | canvasElement pos =>
        cases pos with
        | some p => exact ih _ _
        | none => exact ih _ _
      | relativePoint target editable =>
        cases editable with
        | true =>
          simp only [if_true]
          exact ih _ _
        | false =>
          simp only [Bool.false_eq_true, if_false]
          exact ih _ _
      | absolutePoint => exact ih _ _
      | linePoint lineProvider pos => exact ih _ _
      | canvas => exact ih _ _

/-- Every element enqueued for the next expansion round is a reference
target of some element of the current round. -/
theorem registerStep_next (idx : ModelIndex) :
    ∀ (current newEls moved next moved' : List String),
      registerStep idx current newEls moved = Except.ok (next, moved') →
      ∀ b, b ∈ next → b ∈ newEls ∨ ∃ a, a ∈ current ∧ b ∈ refTargets idx a := by
  intro current
  induction current with
  | nil =>
    intro newEls moved next moved' h b hb
    simp only [registerStep] at h
    cases h
    exact Or.inl hb
  | cons el rest ih =>
    intro newEls moved next moved' h b hb
    simp only [registerStep] at h
    cases hel : idx.getById el with
    | none =>
      rw [hel] at h
      dsimp only at h
      rcases ih _ _ _ _ h b hb with h1 | ⟨a, ha, hb2⟩
      · exact Or.inl h1
      · exact Or.inr ⟨a, List.mem_cons_of_mem _ ha, hb2⟩
    | some c =>
      rw [hel] at h
      cases c with
      | canvasConnection start segs =>
        dsimp only at h
        cases hseg : segs.getLast? with
        | none =>
          rw [hseg] at h
          cases h
        | some s =>
          rw [hseg] at h
          rcases ih _ _ _ _ h b hb with h1 | ⟨a, ha, hb2⟩
          · rcases mem_pushUnique.mp h1 with h2 | rfl
            · exact Or.inl h2
            · refine Or.inr ⟨el, List.mem_cons_self _ _, ?_⟩
              simp [refTargets, hel, refTargetsContent, hseg]
          · exact Or.inr ⟨a, List.mem_cons_of_mem _ ha, hb2⟩
      | marker posId atStart =>
        dsimp only at h
        rcases ih _ _ _ _ h b hb with h1 | ⟨a, ha, hb2⟩
        · rcases mem_pushUnique.mp h1 with h2 | rfl
          · exact Or.inl h2
          · refine Or.inr ⟨el, List.mem_cons_self _ _, ?_⟩
            simp [refTargets, hel, refTargetsContent]
        · exact Or.inr ⟨a, List.mem_cons_of_mem _ ha, hb2⟩
      | canvasElement pos =>
        cases pos with
        | some p =>
          dsimp only at h
          rcases ih _ _ _ _ h b hb with h1 | ⟨a, ha, hb2⟩
          · rcases mem_pushUnique.mp h1 with h2 | rfl
            · exact Or.inl h2
            · refine Or.inr ⟨el, List.mem_cons_self _ _, ?_⟩
              simp [refTargets, hel, refTargetsContent]
          · exact Or.inr ⟨a, List.mem_cons_of_mem _ ha, hb2⟩
        | none =>
          dsimp only at h
          rcases ih _ _ _ _ h b hb with h1 | ⟨a, ha, hb2⟩
          · exact Or.inl h1
          · exact Or.inr ⟨a, List.mem_cons_of_mem _ ha, hb2⟩
      | relativePoint target editable =>
        dsimp only at h
        cases editable with
        | true =>
          simp only [if_true] at h
          rcases ih _ _ _ _ h b hb with h1 | ⟨a, ha, hb2⟩
          · exact Or.inl h1
          · exact Or.inr ⟨a, List.mem_cons_of_mem _ ha, hb2⟩
        | false =>
          simp only [Bool.false_eq_true, if_false] at h
          rcases ih _ _ _ _ h b hb with h1 | ⟨a, ha, hb2⟩
          · rcases mem_pushUnique.mp h1 with h2 | rfl
            · exact Or.inl h2
            · refine Or.inr ⟨el, List.mem_cons_self _ _, ?_⟩
              simp [refTargets, hel, refTargetsContent]
          · exact Or.inr ⟨a, List.mem_cons_of_mem _ ha, hb2⟩
      | absolutePoint =>
        dsimp only at h
        rcases ih _ _ _ _ h b hb with h1 | ⟨a, ha, hb2⟩
        · exact Or.inl h1
        · exact Or.inr ⟨a, List.mem_cons_of_mem _ ha, hb2⟩
      | linePoint lineProvider pos =>
        dsimp only at h
        rcases ih _ _ _ _ h b hb with h1 | ⟨a, ha, hb2⟩
        · exact Or.inl h1
        · exact Or.inr ⟨a, List.mem_cons_of_mem _ ha, hb2⟩
      | canvas =>
        dsimp only at h
        rcases ih _ _ _ _ h b hb with h1 | ⟨a, ha, hb2⟩
        · exact Or.inl h1
        · exact Or.inr ⟨a, List.mem_cons_of_mem _ ha, hb2⟩

/-- Fuel bound: if a measure decreasing along reference edges bounds the
current round by `N`, the expansion loop completes within `N + 1` rounds. -/
theorem registerLoop_ok_of_bound (idx : ModelIndex) (mu : String → Nat)
    (hEdge : ∀ a b, b ∈ refTargets idx a → mu b < mu a)
    (hConn : ∀ id start segs, idx.getById id = some (.canvasConnection start segs) → segs ≠ []) :
    ∀ (N : Nat) (current moved : List String), (∀ a, a ∈ current → mu a < N) →
      ∃ out, registerLoop idx (N + 1) current moved = Except.ok out := by
  intro N
  induction N with
  | zero =>
    intro current moved hbound
    cases current with
    | nil => exact ⟨moved, rfl⟩
    | cons a rest => exact absurd (hbound a (List.mem_cons_self _ _)) (Nat.not_lt_zero _)
  | succ N ih =>
    intro current moved hbound
    cases current with
    | nil => exact ⟨moved, rfl⟩
    | cons a rest =>
      obtain ⟨⟨next, moved1⟩, hstep⟩ := registerStep_ok idx hConn (a :: rest) [] moved
      have hnext : ∀ b, b ∈ next → mu b < N := by
        intro b hb
        rcases registerStep_next idx _ _ _ _ _ hstep b hb with h1 | ⟨a2, ha2, hb2⟩
        · simp at h1
        · have h3 := hEdge a2 b hb2
          have h4 := hbound a2 ha2
          omega
      obtain ⟨out, hout⟩ := ih next moved1 hnext
      refine ⟨out, ?_⟩
      simp only [registerLoop]
      rw [hstep]
      exact hout

/-- C8: under the acyclicity precondition — a measure on ids that strictly
decreases along every reference edge — and with every connection owning at
least one segment, the `registerElements` expansion loop terminates for
every selection: some finite fuel makes it complete, i.e. after finitely
many rounds no new content is produced. -/
theorem registerElements_terminates (idx : ModelIndex) (mu : String → Nat)
    (hEdge : ∀ a b, b ∈ refTargets idx a → mu b < mu a)
    (hConn : ∀ id start segs, idx.getById id = some (.canvasConnection start segs) → segs ≠ [])
    (selected : List String) :
    ∃ fuel moved, registerLoop idx fuel selected [] = Except.ok moved := by
  have hbound : ∀ a, a ∈ selected → mu a < (selected.map mu).sum + 1 := by
    intro a ha
    have h1 : mu a ∈ selected.map mu := List.mem_map_of_mem mu ha
    have h2 : mu a ≤ (selected.map mu).sum := List.single_le_sum (fun x _ => Nat.zero_le x) _ h1
    omega
  obtain ⟨out, hout⟩ := registerLoop_ok_of_bound idx mu hEdge hConn
    ((selected.map mu).sum + 1) selected [] hbound
  exact ⟨_, out, hout⟩

/-- C8 witness: termination on the concrete connector graph, with the
concrete depth measure. -/
theorem registerElements_terminates_witness :
    ∃ fuel moved, registerLoop idxConnector fuel ["c"] [] = Except.ok moved := by
  refine registerElements_terminates idxConnector muConnector ?_ ?_ ["c"]
  · intro a b hb
    unfold refTargets at hb
    cases hl : idxConnector.getById a with
    | none =>
      rw [hl] at hb
      simp at hb
    | some c =>
      rw [hl] at hb
      have hmem := mem_of_lookup_eq_some _ a c hl
      simp only [List.mem_cons, List.not_mem_nil, or_false] at hmem
      rcases hmem with h | h | h | h <;> cases h <;>
        simp [refTargetsContent, SegmentDef.segEnd] at hb
      subst hb
      decide
  · intro id start segs h
    have hmem := mem_of_lookup_eq_some _ id _ h
    simp only [List.mem_cons, List.not_mem_nil, or_false] at hmem
    rcases hmem with h1 | h1 | h1 | h1 <;> simp [Prod.ext_iff] at h1
    obtain ⟨h2, h3, h4⟩ := h1
    subst h4
    simp

/-- C3 witness: disjointness instantiated on the shape-selection run. -/
theorem selector_outputs_disjoint_witness :
    ("P" : String) ∉ SelResult.implicitlyMovedElements ⟨["P"], ["S"], false⟩ :=
  selector_outputs_disjoint idxShapePos 100 ["S"] ⟨["P"], ["S"], false⟩ rfl "P" (by simp)

/-- C7 witness: the connection node of the concrete connector graph is in
neither output set of its own run. -/
theorem connections_never_moved_witness :
    ("c" : String) ∉ SelResult.movedElements ⟨["E"], [], false⟩ ∧
    ("c" : String) ∉ SelResult.implicitlyMovedElements ⟨["E"], [], false⟩ :=
  connector_selection_and_connections_never_moved.2 idxConnector 100 ["c"] ⟨["E"], [], false⟩
    "c" "p1" [SegmentDef.line "E"] rfl rfl
